import Mathlib

/-!
Verification of the Housekeeping app's core logic.

The definitions below are a shallow embedding of the TypeScript source:

* `src/pages/app/EconomyPage.tsx` — the settlement engine
  (`roundOre`, `computeSettlements`, the `balances` memo), with
  JavaScript numbers modelled as exact rationals and `Math.round`
  as Mathlib's `round` (both round half toward +∞);
* `src/pages/app/ShoppingPage.tsx` — optimistic mutations on the
  shopping and pantry collections (`addShopping`, `toggleShopping`,
  `removeShopping`, `loadShopping`, `schedulePantryUpdate`), with the
  asynchronous remote call outcome passed in as an `Except` value and
  the debounce timer registry modelled as an association list keyed by
  record id.
-/

namespace Housekeeping

/-- A member of the household roster, as selected in `EconomyPage.tsx`. -/
structure Member where
  user_id : String
  role : String
  display_name : String
deriving DecidableEq

/-- An expense row, as selected in `EconomyPage.tsx`; `amount_ore` is an
integer amount in minor currency units. -/
structure Expense where
  id : String
  household_id : String
  paid_by : String
  title : String
  amount_ore : Int
  created_by : String
  created_at : String
deriving DecidableEq

/-- One entry of the derived `balances` memo of `EconomyPage.tsx`. -/
structure BalanceEntry where
  user_id : String
  display_name : String
  balance_ore : Int
deriving DecidableEq

/-- One settlement line produced by `computeSettlements`; `from` and `to`
are reserved words in Lean, hence the trailing underscores. -/
structure TransferLine where
  from_ : String
  to_ : String
  amount_ore : Int
deriving DecidableEq

/-- `roundOre(n) = Math.round(n)`: round half toward positive infinity,
which is exactly Mathlib's `round` on `ℚ`. -/
def roundOre (n : ℚ) : Int := round n

/-- Total of the ledger: `expenses.reduce((sum, e) => sum + e.amount_ore, 0)`. -/
def totalOre (expenses : List Expense) : Int :=
  (expenses.map (·.amount_ore)).sum

/-- The value `totalsByUser.get(uid) ?? 0` of `EconomyPage.tsx`: the sum of
the amounts of the expenses paid by `uid`. -/
def paidOre (expenses : List Expense) (uid : String) : Int :=
  ((expenses.filter (fun e => e.paid_by = uid)).map (·.amount_ore)).sum

/-- JavaScript `s.trim()`: strip leading and trailing whitespace, modelled
over the character list so that it computes by structural recursion. -/
def trimJS (s : String) : String :=
  ⟨((s.data.dropWhile Char.isWhitespace).reverse.dropWhile Char.isWhitespace).reverse⟩

/-- JavaScript `s.slice(0, n)`: the first `n` characters. -/
def sliceJS (s : String) (n : Nat) : String :=
  ⟨s.data.take n⟩

/-- `(m.display_name || "").trim() || m.user_id.slice(0, 6)`. -/
def displayNameOf (m : Member) : String :=
  if trimJS m.display_name = "" then sliceJS m.user_id 6 else trimJS m.display_name

/-- The `balances` memo of `EconomyPage.tsx`: empty roster gives `[]`,
otherwise each member gets `round(paid - total/N)` where division is the
exact (JavaScript floating point, here rational) division. -/
def balances (members : List Member) (expenses : List Expense) : List BalanceEntry :=
  if members.length = 0 then []
  else
    let share : ℚ := (totalOre expenses : ℚ) / (members.length : ℚ)
    members.map (fun m =>
      { user_id := m.user_id
        display_name := displayNameOf m
        balance_ore := roundOre ((paidOre expenses m.user_id : ℚ) - share) })

/-- Stable insertion into a descending-sorted list: the new element goes
after every element with a balance ≥ its own, matching the behaviour of
the stable `Array.prototype.sort` with comparator
`(a, b) => b.balance_ore - a.balance_ore`. -/
def insertDesc (b : BalanceEntry) : List BalanceEntry → List BalanceEntry
  | [] => [b]
  | c :: cs => if b.balance_ore < c.balance_ore then c :: insertDesc b cs else b :: c :: cs

/-- Stable sort, descending by `balance_ore`. -/
def sortDesc : List BalanceEntry → List BalanceEntry
  | [] => []
  | b :: bs => insertDesc b (sortDesc bs)

/-- The `creditors` list of `computeSettlements`: entries with positive
balance, sorted descending (stable). -/
def creditors (bs : List BalanceEntry) : List BalanceEntry :=
  sortDesc (bs.filter (fun b => 0 < b.balance_ore))

/-- The `debtors` list of `computeSettlements`: entries with negative
balance, negated to a positive debt, sorted descending (stable). -/
def debtors (bs : List BalanceEntry) : List BalanceEntry :=
  sortDesc ((bs.filter (fun b => b.balance_ore < 0)).map
    (fun b => { b with balance_ore := -b.balance_ore }))

/-- The two-pointer `while` loop of `computeSettlements`: `x = min(d, c)`
is emitted when positive and subtracted from both sides; a side whose
remainder is ≤ 0 is advanced past.  When `d ≤ c` the debtor's remainder
`d - x` is `0`, so the debtor pointer advances (and the creditor too when
its remainder `c - x` hits `0`); otherwise only the creditor advances. -/
def settleLoop : List BalanceEntry → List BalanceEntry → List TransferLine
  | [], _ => []
  | _ :: _, [] => []
  | d :: ds, c :: cs =>
    let x := min d.balance_ore c.balance_ore
    let emitted := if 0 < x then [⟨d.display_name, c.display_name, x⟩] else []
    if d.balance_ore ≤ c.balance_ore then
      if c.balance_ore - x ≤ 0 then
        emitted ++ settleLoop ds cs
      else
        emitted ++ settleLoop ds ({ c with balance_ore := c.balance_ore - x } :: cs)
    else
      emitted ++ settleLoop ({ d with balance_ore := d.balance_ore - x } :: ds) cs
termination_by ds cs => ds.length + cs.length
decreasing_by
  all_goals simp only [List.length_cons]
  all_goals omega

/-- `computeSettlements` of `EconomyPage.tsx`. -/
def computeSettlements (bs : List BalanceEntry) : List TransferLine :=
  settleLoop (debtors bs) (creditors bs)

/-! ### ShoppingPage: optimistic mutations -/

/-- A row of the shopping list, as selected in `ShoppingPage.tsx`. -/
structure ShoppingItem where
  id : String
  text : String
  checked : Bool
deriving DecidableEq

/-- The synchronous part of `addShopping`: append the optimistic record
with the freshly generated temporary id (and `checked: false`) to the
local collection.  (`setMsg(null)` has already run at this point.) -/
def addShoppingLocal (shopping : List ShoppingItem) (tempId t : String) :
    List ShoppingItem :=
  shopping ++ [{ id := tempId, text := t, checked := false }]

/-- The continuation of `addShopping` once the remote insert resolves:
on success the record whose id equals the temporary id is replaced by the
server-returned record; on failure the temporary-id record is filtered
out and the error message is recorded.  Returns the new collection and
the new `msg` state (`addShopping` begins with `setMsg(null)`, so on
success `msg` is `none`). -/
def addShoppingResolve (current : List ShoppingItem) (tempId : String)
    (result : Except String ShoppingItem) : List ShoppingItem × Option String :=
  match result with
  | .ok data => (current.map (fun x => if x.id = tempId then data else x), none)
  | .error e => (current.filter (fun x => x.id ≠ tempId), some e)

/-- `toggleShopping` of `ShoppingPage.tsx` as a whole: flip `checked` on
the record with `item.id` synchronously, issue the remote update of
`{checked: !item.checked}`, and on failure set `checked` back to
`item.checked` on that record (only that field of only that record is
touched).  The remote outcome is the `result` argument. -/
def toggleShopping (shopping : List ShoppingItem) (item : ShoppingItem)
    (result : Except String Unit) : List ShoppingItem × Option String :=
  let updated := shopping.map (fun x =>
    if x.id = item.id then { x with checked := !x.checked } else x)
  match result with
  | .ok _ => (updated, none)
  | .error e =>
    (updated.map (fun x =>
      if x.id = item.id then { x with checked := item.checked } else x), some e)

/-- The synchronous part of `removeShopping`: filter the record out
(after the snapshot of the whole prior collection has been taken). -/
def removeShoppingLocal (shopping : List ShoppingItem) (id : String) :
    List ShoppingItem :=
  shopping.filter (fun x => x.id ≠ id)

/-- `removeShopping` of `ShoppingPage.tsx` as a whole: snapshot, remove
locally, issue the remote delete; on failure restore the full snapshot
and record the error. -/
def removeShopping (shopping : List ShoppingItem) (item : ShoppingItem)
    (result : Except String Unit) : List ShoppingItem × Option String :=
  let snapshot := shopping
  let updated := removeShoppingLocal shopping item.id
  match result with
  | .ok _ => (updated, none)
  | .error e => (snapshot, some e)

/-- `loadShopping` of `ShoppingPage.tsx` (the `reload()` of the spec):
on success the whole local collection is replaced by the fresh remote
read (`msg` untouched); on failure the collection is untouched and the
error message is recorded. -/
def loadShopping (shopping : List ShoppingItem) (msg : Option String)
    (result : Except String (List ShoppingItem)) :
    List ShoppingItem × Option String :=
  match result with
  | .ok data => (data, msg)
  | .error e => (shopping, some e)

/-! ### ShoppingPage: pantry items and the debounce scheduler -/

/-- A pantry row, as selected in `ShoppingPage.tsx`; `qty` is a
JavaScript `number | null`, modelled as `Option ℚ`. -/
structure PantryItem where
  id : String
  name : String
  qty : Option ℚ
  unit : Option String
deriving DecidableEq

/-- A `Partial<PantryItem>` (minus `id`, which no caller ever patches):
each present field overrides the record's field on spread. -/
structure PantryPatch where
  name : Option String := none
  qty : Option (Option ℚ) := none
  unit : Option (Option String) := none
deriving DecidableEq

/-- The JavaScript spread `{ ...x, ...patch }`. -/
def applyPantryPatch (x : PantryItem) (p : PantryPatch) : PantryItem :=
  { id := x.id
    name := p.name.getD x.name
    qty := p.qty.getD x.qty
    unit := p.unit.getD x.unit }

/-- The state touched by pantry edits: the collection, the pending
debounce timer per record id (`pantryTimers.current`, restricted to the
timers that have not yet fired), the `msg` observable, and a log of the
remote `update` calls that have been issued. -/
structure PantryState where
  pantry : List PantryItem
  timers : List (String × PantryPatch)
  msg : Option String
  sent : List (String × PantryPatch)
deriving DecidableEq

/-- `schedulePantryUpdate(id, patch)`: apply the patch to the local
record synchronously, clear any previously pending timer under `id`
(`window.clearTimeout`), and schedule a timer holding `patch`. -/
def schedulePantryUpdate (s : PantryState) (id : String) (patch : PantryPatch) :
    PantryState :=
  { s with
    pantry := s.pantry.map (fun x => if x.id = id then applyPantryPatch x patch else x)
    timers := (id, patch) :: s.timers.filter (fun t => t.1 ≠ id) }

/-- A pending timer for `id` fires: the scheduled action issues the
remote `update` carrying the patch captured at scheduling time, and on
failure only sets the error message (no local revert).  If no timer is
pending for `id` nothing happens. -/
def firePantryTimer (s : PantryState) (id : String)
    (result : Except String Unit) : PantryState :=
  match s.timers.find? (fun t => t.1 = id) with
  | none => s
  | some (_, patch) =>
    { s with
      timers := s.timers.filter (fun t => t.1 ≠ id)
      sent := s.sent ++ [(id, patch)]
      msg := match result with
             | .ok _ => s.msg
             | .error e => some e }

/-- The events that drive the pantry-edit state machine. -/
inductive PantryEv where
  | schedule (id : String) (patch : PantryPatch)
  | fire (id : String) (result : Except String Unit)

/-- One step of the pantry-edit state machine. -/
def pantryStep (s : PantryState) : PantryEv → PantryState
  | .schedule id patch => schedulePantryUpdate s id patch
  | .fire id result => firePantryTimer s id result

/-- Run a sequence of pantry-edit events. -/
def runPantry (s : PantryState) : List PantryEv → PantryState
  | [] => s
  | ev :: evs => runPantry (pantryStep s ev) evs

/-! ### Lemmas about the settlement engine -/

lemma mem_insertDesc {y b : BalanceEntry} :
    ∀ {l : List BalanceEntry}, y ∈ insertDesc b l → y = b ∨ y ∈ l := by
  intro l
  induction l with
  | nil => simp [insertDesc]
  | cons c cs ih =>
    simp only [insertDesc]
    split
    · intro h
      rcases List.mem_cons.mp h with h | h
      · exact Or.inr (h ▸ List.mem_cons_self c cs)
      · rcases ih h with h | h
        · exact Or.inl h
        · exact Or.inr (List.mem_cons_of_mem c h)
    · intro h
      rcases List.mem_cons.mp h with h | h
      · exact Or.inl h
      · exact Or.inr h

lemma pairwise_insertDesc (b : BalanceEntry) :
    ∀ {l : List BalanceEntry},
      l.Pairwise (fun a b => b.balance_ore ≤ a.balance_ore) →
      (insertDesc b l).Pairwise (fun a b => b.balance_ore ≤ a.balance_ore) := by
  intro l
  induction l with
  | nil => simp [insertDesc]
  | cons c cs ih =>
    intro h
    rcases List.pairwise_cons.mp h with ⟨hc, hcs⟩
    simp only [insertDesc]
    split
    · rename_i hlt
      refine List.pairwise_cons.mpr ⟨?_, ih hcs⟩
      intro y hy
      rcases mem_insertDesc hy with rfl | hy
      · exact le_of_lt hlt
      · exact hc y hy
    · rename_i hnlt
      refine List.pairwise_cons.mpr ⟨?_, h⟩
      intro y hy
      rcases List.mem_cons.mp hy with rfl | hy
      · exact le_of_not_lt hnlt
      · exact le_trans (hc y hy) (le_of_not_lt hnlt)

lemma pairwise_sortDesc (l : List BalanceEntry) :
    (sortDesc l).Pairwise (fun a b => b.balance_ore ≤ a.balance_ore) := by
  induction l with
  | nil => simp [sortDesc]
  | cons b bs ih => exact pairwise_insertDesc b ih

lemma insertDesc_filter_key (b : BalanceEntry) (k : Int) :
    ∀ (l : List BalanceEntry),
      (insertDesc b l).filter (fun x => x.balance_ore = k) =
        (b :: l).filter (fun x => x.balance_ore = k) := by
  intro l
  induction l with
  | nil => simp [insertDesc]
  | cons c cs ih =>
    simp only [insertDesc]
    split
    · rename_i hlt
      by_cases hb : b.balance_ore = k
      · have hc : ¬ c.balance_ore = k := by omega
        simp only [List.filter_cons, hb, hc, ih]
        simp [hb, hc]
      · by_cases hc : c.balance_ore = k
        · simp only [List.filter_cons, hb, hc, ih]
          simp [hb, hc]
        · simp only [List.filter_cons, hb, hc, ih]
          simp [hb, hc]
    · rfl

lemma sortDesc_filter_key (k : Int) :
    ∀ (l : List BalanceEntry),
      (sortDesc l).filter (fun x => x.balance_ore = k) =
        l.filter (fun x => x.balance_ore = k) := by
  intro l
  induction l with
  | nil => rfl
  | cons b bs ih =>
    simp only [sortDesc]
    rw [insertDesc_filter_key]
    simp only [List.filter_cons]
    rw [ih]

lemma insertDesc_length (b : BalanceEntry) :
    ∀ (l : List BalanceEntry), (insertDesc b l).length = l.length + 1 := by
  intro l
  induction l with
  | nil => rfl
  | cons c cs ih =>
    simp only [insertDesc]
    split
    · simp [ih]
    · simp

lemma sortDesc_length : ∀ (l : List BalanceEntry), (sortDesc l).length = l.length := by
  intro l
  induction l with
  | nil => rfl
  | cons b bs ih => simp [sortDesc, insertDesc_length, ih]

/-- The loop body of `computeSettlements`, written exactly as the source
describes one iteration: let `x = min(d, c)`; emit when `x > 0`; subtract
`x` from both parties; advance past any party whose remainder is ≤ 0. -/
lemma settleLoop_cons_cons (d c : BalanceEntry) (ds cs : List BalanceEntry) :
    settleLoop (d :: ds) (c :: cs) =
      (if 0 < min d.balance_ore c.balance_ore
        then [⟨d.display_name, c.display_name, min d.balance_ore c.balance_ore⟩] else []) ++
      settleLoop
        (if d.balance_ore - min d.balance_ore c.balance_ore ≤ 0 then ds
         else { d with balance_ore := d.balance_ore - min d.balance_ore c.balance_ore } :: ds)
        (if c.balance_ore - min d.balance_ore c.balance_ore ≤ 0 then cs
         else { c with balance_ore := c.balance_ore - min d.balance_ore c.balance_ore } :: cs) := by
  rw [settleLoop]
  by_cases h : d.balance_ore ≤ c.balance_ore
  · have hmin : min d.balance_ore c.balance_ore = d.balance_ore := min_eq_left h
    have hd0 : d.balance_ore - min d.balance_ore c.balance_ore ≤ 0 := by omega
    simp only [hmin, if_pos h, if_pos hd0]
    by_cases h2 : c.balance_ore - d.balance_ore ≤ 0
    · simp only [if_pos h2]
      simp
    · simp only [if_neg h2]
      simp
  · have hmin : min d.balance_ore c.balance_ore = c.balance_ore := min_eq_right (by omega)
    have hc0 : c.balance_ore - min d.balance_ore c.balance_ore ≤ 0 := by omega
    have hd : ¬ (d.balance_ore - min d.balance_ore c.balance_ore ≤ 0) := by omega
    simp only [hmin, if_neg h, if_pos hc0, if_neg hd]
    simp [h]

lemma settleLoop_length :
    ∀ (ds cs : List BalanceEntry),
      (settleLoop ds cs).length ≤ ds.length + cs.length - 1 := by
  intro ds cs
  induction ds, cs using settleLoop.induct with
  | case1 cs => simp [settleLoop]
  | case2 d ds => simp [settleLoop]
  | case3 d ds c cs x hle hc0 ih =>
    rw [settleLoop, if_pos hle, if_pos hc0]
    simp only [List.length_append, List.length_cons]
    have hemit : (if 0 < min d.balance_ore c.balance_ore
        then [(⟨d.display_name, c.display_name, min d.balance_ore c.balance_ore⟩ : TransferLine)]
        else []).length ≤ 1 := by
      split <;> simp
    omega
  | case4 d ds c cs x hle hc0 ih =>
    rw [settleLoop, if_pos hle, if_neg hc0]
    have hx : x = min d.balance_ore c.balance_ore := rfl
    rw [hx] at ih
    simp only [List.length_append, List.length_cons] at ih ⊢
    have hemit : (if 0 < min d.balance_ore c.balance_ore
        then [(⟨d.display_name, c.display_name, min d.balance_ore c.balance_ore⟩ : TransferLine)]
        else []).length ≤ 1 := by
      split <;> simp
    omega
  | case5 d ds c cs x hle ih =>
    rw [settleLoop, if_neg hle]
    have hx : x = min d.balance_ore c.balance_ore := rfl
    rw [hx] at ih
    simp only [List.length_append, List.length_cons] at ih ⊢
    have hemit : (if 0 < min d.balance_ore c.balance_ore
        then [(⟨d.display_name, c.display_name, min d.balance_ore c.balance_ore⟩ : TransferLine)]
        else []).length ≤ 1 := by
      split <;> simp
    omega

lemma paidOre_cons (e : Expense) (es : List Expense) (uid : String) :
    paidOre (e :: es) uid =
      (if e.paid_by = uid then e.amount_ore else 0) + paidOre es uid := by
  by_cases h : e.paid_by = uid <;> simp [paidOre, List.filter_cons, h]

lemma sum_if_single (u : String) (a : Int) :
    ∀ (uids : List String), uids.Nodup → u ∈ uids →
      (uids.map (fun v => if u = v then a else 0)).sum = a := by
  intro uids
  induction uids with
  | nil => simp
  | cons v vs ih =>
    intro hnd hm
    rcases List.mem_cons.mp hm with rfl | hm
    · have hnotin : u ∉ vs := (List.nodup_cons.mp hnd).1
      simp only [List.map_cons, List.sum_cons, if_pos rfl]
      have hz : (vs.map (fun w => if u = w then a else 0)).sum = 0 := by
        apply List.sum_eq_zero
        intro x hx
        rcases List.mem_map.mp hx with ⟨w, hw, rfl⟩
        have huw : ¬ u = w := fun h => hnotin (h ▸ hw)
        simp [huw]
      rw [hz, add_zero]
      simp
    · have hvu : ¬ u = v := by
        intro h
        exact (List.nodup_cons.mp hnd).1 (h ▸ hm)
      simp only [List.map_cons, List.sum_cons, if_neg hvu]
      rw [ih (List.nodup_cons.mp hnd).2 hm, zero_add]

lemma sum_paid :
    ∀ (es : List Expense) (members : List Member),
      (members.map (·.user_id)).Nodup →
      (∀ e ∈ es, e.paid_by ∈ members.map (·.user_id)) →
      (members.map (fun m => paidOre es m.user_id)).sum = totalOre es := by
  intro es
  induction es with
  | nil =>
    intro members _ _
    have : members.map (fun m => paidOre [] m.user_id) = members.map (fun _ => (0 : Int)) := by
      simp [paidOre]
    rw [this, List.map_const', List.sum_replicate, totalOre]
    simp
  | cons e es ih =>
    intro members hnd hcov
    have h1 : members.map (fun m => paidOre (e :: es) m.user_id)
        = members.map (fun m =>
            (if e.paid_by = m.user_id then e.amount_ore else 0) + paidOre es m.user_id) := by
      simp [paidOre_cons]
    rw [h1, List.sum_map_add]
    have h2 : (members.map (fun m => if e.paid_by = m.user_id then e.amount_ore else 0)).sum
        = e.amount_ore := by
      have hcomp : members.map (fun m => if e.paid_by = m.user_id then e.amount_ore else 0)
          = (members.map (·.user_id)).map (fun v => if e.paid_by = v then e.amount_ore else 0) := by
        rw [List.map_map]
        rfl
      rw [hcomp]
      exact sum_if_single e.paid_by e.amount_ore (members.map (·.user_id)) hnd
        (hcov e (List.mem_cons_self e es))
    rw [h2, ih members hnd (fun e' he' => hcov e' (List.mem_cons_of_mem e he'))]
    simp [totalOre]

/-- Each member's balance is their paid total plus the member-independent
constant `round(-total/N)` (`round` commutes with adding an integer). -/
lemma balances_map_balance (members : List Member) (expenses : List Expense)
    (hlen : members.length ≠ 0) :
    (balances members expenses).map (·.balance_ore)
      = members.map (fun m => paidOre expenses m.user_id
          + round (-(totalOre expenses : ℚ) / (members.length : ℚ))) := by
  simp only [balances, if_neg hlen]
  rw [List.map_map]
  congr 1
  funext m
  simp only [Function.comp, roundOre]
  rw [sub_eq_add_neg, ← neg_div, round_int_add]

lemma computeSettlements_of_all_zero {bs : List BalanceEntry}
    (h : ∀ b ∈ bs, b.balance_ore = 0) : computeSettlements bs = [] := by
  have hc : bs.filter (fun b => 0 < b.balance_ore) = [] := by
    rw [List.filter_eq_nil_iff]
    intro b hb
    simp [h b hb]
  have hd : bs.filter (fun b => b.balance_ore < 0) = [] := by
    rw [List.filter_eq_nil_iff]
    intro b hb
    simp [h b hb]
  rw [computeSettlements, debtors, creditors, hc, hd]
  simp [sortDesc, settleLoop]

/-! ### Lemmas about the debounce timer registry -/

lemma pantryStep_timers_nodup (s : PantryState) (ev : PantryEv)
    (h : (s.timers.map Prod.fst).Nodup) :
    ((pantryStep s ev).timers.map Prod.fst).Nodup := by
  cases ev with
  | schedule id patch =>
    simp only [pantryStep, schedulePantryUpdate, List.map_cons]
    refine List.nodup_cons.mpr
      ⟨?_, h.sublist ((List.filter_sublist s.timers).map Prod.fst)⟩
    intro hmem
    rcases List.mem_map.mp hmem with ⟨t, ht, hfst⟩
    have hne := (List.mem_filter.mp ht).2
    simp only [decide_eq_true_eq] at hne
    exact absurd hfst hne
  | fire id r =>
    simp only [pantryStep, firePantryTimer]
    cases hfind : s.timers.find? (fun t => t.1 = id) with
    | none => simpa [hfind] using h
    | some t =>
      cases t
      simp only [hfind]
      exact h.sublist ((List.filter_sublist s.timers).map Prod.fst)

lemma runPantry_timers_nodup :
    ∀ (evs : List PantryEv) (s : PantryState),
      (s.timers.map Prod.fst).Nodup →
      ((runPantry s evs).timers.map Prod.fst).Nodup := by
  intro evs
  induction evs with
  | nil => exact fun s h => h
  | cons ev evs ih => exact fun s h => ih _ (pantryStep_timers_nodup s ev h)

/-! ### Lemmas about the shopping coordinator -/

lemma map_replace_of_fresh (prev : List ShoppingItem) (tempId : String)
    (data : ShoppingItem) (h : ∀ x ∈ prev, x.id ≠ tempId) :
    prev.map (fun x => if x.id = tempId then data else x) = prev := by
  have := List.map_congr_left (l := prev)
    (f := fun x => if x.id = tempId then data else x) (g := id)
    (fun x hx => by simp [h x hx])
  simpa using this

lemma filter_ne_of_fresh (prev : List ShoppingItem) (tempId : String)
    (h : ∀ x ∈ prev, x.id ≠ tempId) :
    prev.filter (fun x => x.id ≠ tempId) = prev :=
  List.filter_eq_self.mpr (fun x hx => by simp [h x hx])

/-! ### Claim C2 -/

/-- C2: an optimistic create on the empty collection immediately yields
length 1 with the temporary-id record; resolving with server record
`data` replaces the temporary-id record (matched by id: any other record
survives even with identical content) so the collection is `[data]`;
resolving with an error removes the record, returning the collection to
`[]`, and surfaces the error. -/
theorem optimistic_create_spec (tempId t e : String) (data : ShoppingItem) :
    (addShoppingLocal [] tempId t).length = 1
    ∧ addShoppingLocal [] tempId t = [{ id := tempId, text := t, checked := false }]
    ∧ addShoppingResolve (addShoppingLocal [] tempId t) tempId (.ok data) = ([data], none)
    ∧ addShoppingResolve (addShoppingLocal [] tempId t) tempId (.error e) = ([], some e)
    ∧ (∀ (prev : List ShoppingItem), (∀ x ∈ prev, x.id ≠ tempId) →
        addShoppingResolve (addShoppingLocal prev tempId t) tempId (.ok data)
          = (prev ++ [data], none)
        ∧ addShoppingResolve (addShoppingLocal prev tempId t) tempId (.error e)
          = (prev, some e)) := by
  refine ⟨rfl, rfl, by simp [addShoppingLocal, addShoppingResolve],
    by simp [addShoppingLocal, addShoppingResolve], ?_⟩
  intro prev h
  constructor
  · simp only [addShoppingResolve, addShoppingLocal, List.map_append,
      map_replace_of_fresh prev tempId data h]
    simp
  · simp only [addShoppingResolve, addShoppingLocal, List.filter_append,
      filter_ne_of_fresh prev tempId h]
    simp

/-- Witness for C2: resolving the create over a prior collection holding
an identically-texted record with a different id replaces only the
temporary-id record. -/
theorem optimistic_create_spec_witness :
    addShoppingResolve
        (addShoppingLocal [{ id := "r0", text := "milk", checked := true }] "temp-1" "milk")
        "temp-1" (.ok { id := "r1", text := "milk", checked := false })
      = ([{ id := "r0", text := "milk", checked := true },
          { id := "r1", text := "milk", checked := false }], none)
    ∧ addShoppingResolve
        (addShoppingLocal [{ id := "r0", text := "milk", checked := true }] "temp-1" "milk")
        "temp-1" (.error "boom")
      = ([{ id := "r0", text := "milk", checked := true }], some "boom") :=
  (optimistic_create_spec "temp-1" "milk" "boom"
      { id := "r1", text := "milk", checked := false }).2.2.2.2
    [{ id := "r0", text := "milk", checked := true }] (by decide)

/-! ### Claim C4 -/

/-- C4: `remove` deletes the record from the local collection
synchronously (a filter on the snapshotted prior collection); when the
remote delete fails the full prior snapshot is restored exactly, order
preserved, and the error is surfaced; in particular `[A, B, C]` with a
failing `remove(B)` is restored to exactly `[A, B, C]`. -/
theorem remove_rollback_spec :
    (∀ (shopping : List ShoppingItem) (item : ShoppingItem) (e : String),
      removeShopping shopping item (.error e) = (shopping, some e))
    ∧ (∀ (shopping : List ShoppingItem) (item : ShoppingItem),
      removeShopping shopping item (.ok ())
        = (shopping.filter (fun x => x.id ≠ item.id), none))
    ∧ (∀ (shopping : List ShoppingItem) (id : String),
      removeShoppingLocal shopping id = shopping.filter (fun x => x.id ≠ id))
    ∧ removeShoppingLocal
        [{ id := "a", text := "A", checked := false },
         { id := "b", text := "B", checked := false },
         { id := "c", text := "C", checked := false }] "b"
      = [{ id := "a", text := "A", checked := false },
         { id := "c", text := "C", checked := false }]
    ∧ removeShopping
        [{ id := "a", text := "A", checked := false },
         { id := "b", text := "B", checked := false },
         { id := "c", text := "C", checked := false }]
        { id := "b", text := "B", checked := false } (.error "boom")
      = ([{ id := "a", text := "A", checked := false },
          { id := "b", text := "B", checked := false },
          { id := "c", text := "C", checked := false }], some "boom") := by
  exact ⟨fun _ _ _ => rfl, fun _ _ => rfl, fun _ _ => rfl, by decide, by decide⟩

/-! ### Claim C5 -/

/-- Counterexample to C5: a reload that resolves with the fresh remote
read `[{id:"r9"}]` over a local collection holding the unresolved
temporary-id record `{id:"temp-1"}` replaces the whole collection; the
temporary-id record does NOT remain after the reload resolves. -/
theorem reload_keeps_temp_counterexample :
    (loadShopping [{ id := "temp-1", text := "milk", checked := false }] none
        (.ok [{ id := "r9", text := "bread", checked := false }])).1
      = [{ id := "r9", text := "bread", checked := false }]
    ∧ ¬ (∃ x ∈ (loadShopping [{ id := "temp-1", text := "milk", checked := false }] none
        (.ok [{ id := "r9", text := "bread", checked := false }])).1,
          x.id = "temp-1") := by
  decide

/-- C5 as amended: `reload()` replaces the entire local collection with
exactly the fresh remote read, unconditionally overwriting all pending
optimistic state — including dropping local-only temporary-id records;
on a failed read the collection is left unchanged and the error is
surfaced. -/
theorem reload_replaces_collection (shopping data : List ShoppingItem)
    (msg : Option String) (e : String) :
    loadShopping shopping msg (.ok data) = (data, msg)
    ∧ loadShopping shopping msg (.error e) = (shopping, some e) :=
  ⟨rfl, rfl⟩

/-! ### Claim C3 -/

/-- C3: each `schedule` under a key cancels the previously pending timer
for that key, so the registry holds exactly one pending entry per key
(and, from a fresh registry, the pending keys stay duplicate-free under
every event sequence); if `schedule` runs N times for the same key
before any timer fires, the single fire issues exactly one remote update
carrying the last-scheduled patch — for the three text edits
`a`, `ab`, `abc` within the window, one remote update carrying `abc`. -/
theorem debounce_coalescing_spec :
    (∀ (s : PantryState) (id : String) (patch : PantryPatch),
      (schedulePantryUpdate s id patch).timers.filter (fun t => t.1 = id)
        = [(id, patch)])
    ∧ (∀ (pantry0 : List PantryItem) (msg0 : Option String) (evs : List PantryEv),
        ((runPantry { pantry := pantry0, timers := [], msg := msg0, sent := [] }
          evs).timers.map Prod.fst).Nodup)
    ∧ (∀ (s : PantryState) (id : String) (p1 p2 p3 : PantryPatch)
        (r : Except String Unit),
        (runPantry s [.schedule id p1, .schedule id p2, .schedule id p3,
            .fire id r]).sent
          = s.sent ++ [(id, p3)])
    ∧ (runPantry
        { pantry := [{ id := "p1", name := "", qty := none, unit := none }],
          timers := [], msg := none, sent := [] }
        [.schedule "p1" { name := some "a" }, .schedule "p1" { name := some "ab" },
          .schedule "p1" { name := some "abc" }, .fire "p1" (.ok ())]).sent
        = [("p1", { name := some "abc" })] := by
  refine ⟨?_, ?_, ?_, by decide⟩
  · intro s id patch
    simp only [schedulePantryUpdate]
    rw [List.filter_cons, List.filter_filter]
    have hnil : List.filter (fun a => decide (a.1 = id) && decide (a.1 ≠ id)) s.timers
        = [] :=
      List.filter_eq_nil_iff.mpr (fun a _ => by by_cases h : a.1 = id <;> simp [h])
    simp [hnil]
  · intro pantry0 msg0 evs
    exact runPantry_timers_nodup evs _ (by simp)
  · intro s id p1 p2 p3 r
    simp only [runPantry, pantryStep, schedulePantryUpdate, firePantryTimer]
    rw [List.find?_cons_of_pos _ (by simp)]

/-! ### Claim C6 -/

/-- Counterexample to C6: on the debounced path a failing remote write
does not revert the mutated field.  The pantry record's name was patched
from `Pasta` to `Pastaa`; after the timer fires with an error, the error
is surfaced but the name stays `Pastaa` — not its pre-patch value. -/
theorem update_revert_debounced_counterexample :
    (runPantry
        { pantry := [{ id := "p1", name := "Pasta", qty := none, unit := some "st" }],
          timers := [], msg := none, sent := [] }
        [.schedule "p1" { name := some "Pastaa" },
          .fire "p1" (.error "boom")]).pantry
      = [{ id := "p1", name := "Pastaa", qty := none, unit := some "st" }]
    ∧ (runPantry
        { pantry := [{ id := "p1", name := "Pasta", qty := none, unit := some "st" }],
          timers := [], msg := none, sent := [] }
        [.schedule "p1" { name := some "Pastaa" },
          .fire "p1" (.error "boom")]).msg = some "boom"
    ∧ (runPantry
        { pantry := [{ id := "p1", name := "Pasta", qty := none, unit := some "st" }],
          timers := [], msg := none, sent := [] }
        [.schedule "p1" { name := some "Pastaa" },
          .fire "p1" (.error "boom")]).pantry
      ≠ [{ id := "p1", name := "Pasta", qty := none, unit := some "st" }] := by
  refine ⟨?_, ?_, ?_⟩ <;> decide

/-- C6 as amended: `update` applies the patch to the local record
synchronously on both paths; the non-debounced checkbox toggle writes
remotely at once and on failure reverts exactly the mutated field of
exactly that record; the debounced path defers the remote write (nothing
is sent at schedule time) and on failure of the deferred write only
surfaces the error — the local fields are NOT reverted. -/
theorem update_paths_amended (shopping : List ShoppingItem) (item : ShoppingItem)
    (e : String) (s : PantryState) (pid : String) (patch : PantryPatch)
    (h : ∀ x ∈ shopping, x.id = item.id → x.checked = item.checked) :
    toggleShopping shopping item (.ok ())
      = (shopping.map (fun x =>
          if x.id = item.id then { x with checked := !x.checked } else x), none)
    ∧ toggleShopping shopping item (.error e) = (shopping, some e)
    ∧ (schedulePantryUpdate s pid patch).pantry
        = s.pantry.map (fun x => if x.id = pid then applyPantryPatch x patch else x)
    ∧ (schedulePantryUpdate s pid patch).sent = s.sent
    ∧ (firePantryTimer (schedulePantryUpdate s pid patch) pid (.error e)).pantry
        = (schedulePantryUpdate s pid patch).pantry
    ∧ (firePantryTimer (schedulePantryUpdate s pid patch) pid (.error e)).msg
        = some e := by
  refine ⟨rfl, ?_, rfl, rfl, ?_, ?_⟩
  · simp only [toggleShopping, List.map_map]
    have hmap : shopping.map ((fun x =>
          if x.id = item.id then { x with checked := item.checked } else x) ∘
        (fun x => if x.id = item.id then { x with checked := !x.checked } else x))
        = shopping := by
      have := List.map_congr_left (l := shopping)
        (f := (fun x =>
            if x.id = item.id then { x with checked := item.checked } else x) ∘
          (fun x => if x.id = item.id then { x with checked := !x.checked } else x))
        (g := id)
        (fun x hx => by
          by_cases hid : x.id = item.id
          · have hc : x.checked = item.checked := h x hx hid
            simp only [Function.comp_apply, if_pos hid, id_eq]
            rw [← hc]
          · simp [Function.comp_apply, hid])
      simpa using this
    rw [hmap]
  · simp only [firePantryTimer, schedulePantryUpdate]
    rw [List.find?_cons_of_pos _ (by simp)]
  · simp only [firePantryTimer, schedulePantryUpdate]
    rw [List.find?_cons_of_pos _ (by simp)]

/-- Witness for C6 (amended): the concrete checkbox toggle on
`[A, B]` with a failing remote write restores the prior state exactly,
while the scheduled pantry edit leaves its patch in place. -/
theorem update_paths_amended_witness :
    toggleShopping
        [{ id := "a", text := "A", checked := false },
          { id := "b", text := "B", checked := true }]
        { id := "b", text := "B", checked := true } (.error "boom")
      = ([{ id := "a", text := "A", checked := false },
          { id := "b", text := "B", checked := true }], some "boom")
    ∧ (firePantryTimer
        (schedulePantryUpdate
          { pantry := [{ id := "p1", name := "Pasta", qty := none, unit := none }],
            timers := [], msg := none, sent := [] }
          "p1" { name := some "Pastaa" })
        "p1" (.error "boom")).msg = some "boom" :=
  ⟨(update_paths_amended
      [{ id := "a", text := "A", checked := false },
        { id := "b", text := "B", checked := true }]
      { id := "b", text := "B", checked := true } "boom"
      { pantry := [{ id := "p1", name := "Pasta", qty := none, unit := none }],
        timers := [], msg := none, sent := [] }
      "p1" { name := some "Pastaa" } (by decide)).2.1,
    (update_paths_amended
      [{ id := "a", text := "A", checked := false },
        { id := "b", text := "B", checked := true }]
      { id := "b", text := "B", checked := true } "boom"
      { pantry := [{ id := "p1", name := "Pasta", qty := none, unit := none }],
        timers := [], msg := none, sent := [] }
      "p1" { name := some "Pastaa" } (by decide)).2.2.2.2.2⟩

/-! ### Claim C7 -/

/-- Counterexample to C7: a mutation routed through the debounce
scheduler whose remote write succeeds does not clear the last-error
observable — the stale message is still shown after the successful
remote update was issued. -/
theorem error_clear_debounced_counterexample :
    (runPantry
        { pantry := [{ id := "p1", name := "Pasta", qty := none, unit := none }],
          timers := [], msg := some "old failure", sent := [] }
        [.schedule "p1" { name := some "Pastas" }, .fire "p1" (.ok ())]).sent
      = [("p1", { name := some "Pastas" })]
    ∧ (runPantry
        { pantry := [{ id := "p1", name := "Pasta", qty := none, unit := none }],
          timers := [], msg := some "old failure", sent := [] }
        [.schedule "p1" { name := some "Pastas" }, .fire "p1" (.ok ())]).msg
      = some "old failure"
    ∧ (runPantry
        { pantry := [{ id := "p1", name := "Pasta", qty := none, unit := none }],
          timers := [], msg := some "old failure", sent := [] }
        [.schedule "p1" { name := some "Pastas" }, .fire "p1" (.ok ())]).msg
      ≠ none := by
  refine ⟨?_, ?_, ?_⟩ <;> decide

/-- C7 as amended: every failing remote outcome records its message as
the most recent error; every successful non-debounced mutation (create,
toggle, remove) resets the message to `null`; mutations deferred through
the debounce scheduler never clear it — scheduling keeps the message and
a successful deferred write keeps it too (only a failing one overwrites
it). -/
theorem error_observable_amended (shopping current : List ShoppingItem)
    (item data : ShoppingItem) (tempId e : String)
    (s : PantryState) (id : String) (patch : PantryPatch) :
    (addShoppingResolve current tempId (.error e)).2 = some e
    ∧ (toggleShopping shopping item (.error e)).2 = some e
    ∧ (removeShopping shopping item (.error e)).2 = some e
    ∧ (firePantryTimer (schedulePantryUpdate s id patch) id (.error e)).msg = some e
    ∧ (addShoppingResolve current tempId (.ok data)).2 = none
    ∧ (toggleShopping shopping item (.ok ())).2 = none
    ∧ (removeShopping shopping item (.ok ())).2 = none
    ∧ (schedulePantryUpdate s id patch).msg = s.msg
    ∧ (firePantryTimer (schedulePantryUpdate s id patch) id (.ok ())).msg = s.msg := by
  refine ⟨rfl, rfl, rfl, ?_, rfl, rfl, rfl, rfl, ?_⟩
  · simp only [firePantryTimer, schedulePantryUpdate]
    rw [List.find?_cons_of_pos _ (by simp)]
  · simp only [firePantryTimer, schedulePantryUpdate]
    rw [List.find?_cons_of_pos _ (by simp)]

/-! ### Claim C10 -/

/-- C10: the settlement loop terminates (it is a total function of this
development), and the number of emitted transfer lines is at most
(number of debtors) + (number of creditors) − 1; the input balance list
is consumed purely (the source copies every entry with a spread before
mutating, which the pure embedding reflects by construction). -/
theorem settlement_termination_line_bound (bs : List BalanceEntry) :
    (computeSettlements bs).length
      ≤ (bs.filter (fun b => b.balance_ore < 0)).length
        + (bs.filter (fun b => 0 < b.balance_ore)).length - 1 := by
  have h := settleLoop_length (debtors bs) (creditors bs)
  have hd : (debtors bs).length = (bs.filter (fun b => b.balance_ore < 0)).length := by
    rw [debtors, sortDesc_length, List.length_map]
  have hc : (creditors bs).length = (bs.filter (fun b => 0 < b.balance_ore)).length := by
    rw [creditors, sortDesc_length]
  rw [computeSettlements]
  omega

/-! ### Claim C9 -/

/-- C9: with a non-empty roster of `N` members with distinct user ids
covering every payer, the sum of the rounded balances is congruent to the
ledger total modulo `N` (it is the rounding remainder of `total/N`), and
its magnitude is at most `N − 1` minor units. -/
theorem balances_sum_rounding_remainder (members : List Member)
    (expenses : List Expense)
    (hne : members ≠ [])
    (hnd : (members.map (·.user_id)).Nodup)
    (hcov : ∀ e ∈ expenses, e.paid_by ∈ members.map (·.user_id)) :
    ((balances members expenses).map (·.balance_ore)).sum
        = totalOre expenses
          + (members.length : Int)
            * round (-(totalOre expenses : ℚ) / (members.length : ℚ))
    ∧ ((balances members expenses).map (·.balance_ore)).sum % (members.length : Int)
        = totalOre expenses % (members.length : Int)
    ∧ |((balances members expenses).map (·.balance_ore)).sum|
        ≤ (members.length : Int) - 1 := by
  have hpos : 0 < members.length := List.length_pos.mpr hne
  have hlen : members.length ≠ 0 := by omega
  set C : Int := round (-(totalOre expenses : ℚ) / (members.length : ℚ)) with hC
  have hsum : ((balances members expenses).map (·.balance_ore)).sum
      = totalOre expenses + (members.length : Int) * C := by
    rw [balances_map_balance members expenses hlen]
    rw [List.sum_map_add]
    rw [sum_paid expenses members hnd hcov]
    rw [List.map_const', List.sum_replicate]
    simp [nsmul_eq_mul]
  have hlenQ : ((members.length : ℚ)) ≠ 0 := by
    exact_mod_cast hlen
  have hlenQpos : (0:ℚ) < (members.length : ℚ) := by
    exact_mod_cast hpos
  have hx := abs_sub_round (-(totalOre expenses : ℚ) / (members.length : ℚ))
  have key : (totalOre expenses : ℚ) + (members.length : ℚ) * (C : ℚ)
      = -((members.length : ℚ)
          * ((-(totalOre expenses : ℚ) / (members.length : ℚ)) - (C:ℚ))) := by
    field_simp
    ring
  have h2 : |(totalOre expenses : ℚ) + (members.length : ℚ) * (C : ℚ)|
      ≤ (members.length : ℚ) / 2 := by
    rw [key, abs_neg, abs_mul, abs_of_nonneg (le_of_lt hlenQpos)]
    calc (members.length : ℚ)
          * |(-(totalOre expenses : ℚ) / (members.length : ℚ)) - (C:ℚ)|
        ≤ (members.length : ℚ) * (1/2) :=
          mul_le_mul_of_nonneg_left (by rw [hC]; exact hx) (le_of_lt hlenQpos)
      _ = (members.length : ℚ) / 2 := by ring
  have h2' : 2 * |(totalOre expenses : ℚ) + (members.length : ℚ) * (C : ℚ)|
      ≤ (members.length : ℚ) := by linarith
  have h3 : 2 * |totalOre expenses + (members.length : Int) * C|
      ≤ (members.length : Int) := by
    exact_mod_cast h2'
  have hN1 : (1 : Int) ≤ (members.length : Int) := by exact_mod_cast hpos
  rw [hsum]
  refine ⟨rfl, ?_, ?_⟩
  · rw [Int.add_mul_emod_self_left]
  · omega

/-- Witness for C9: members `[X, Y]` and the single expense
`{payer: X, amount: 1000}` satisfy the hypotheses; balances are
`X:+500, Y:-500`, so the sum is `0 = 1000 % 2` and `|0| ≤ 1`. -/
theorem balances_sum_rounding_remainder_witness :
    ((balances [⟨"ux","member","X"⟩, ⟨"uy","member","Y"⟩]
          [⟨"e1","h1","ux","dinner",1000,"ux","t0"⟩]).map (·.balance_ore)).sum
        = totalOre [⟨"e1","h1","ux","dinner",1000,"ux","t0"⟩]
          + (([⟨"ux","member","X"⟩, ⟨"uy","member","Y"⟩] : List Member).length : Int)
            * round (-(totalOre [⟨"e1","h1","ux","dinner",1000,"ux","t0"⟩] : ℚ)
                / (([⟨"ux","member","X"⟩, ⟨"uy","member","Y"⟩] : List Member).length : ℚ))
    ∧ ((balances [⟨"ux","member","X"⟩, ⟨"uy","member","Y"⟩]
          [⟨"e1","h1","ux","dinner",1000,"ux","t0"⟩]).map (·.balance_ore)).sum
        % (([⟨"ux","member","X"⟩, ⟨"uy","member","Y"⟩] : List Member).length : Int)
      = totalOre [⟨"e1","h1","ux","dinner",1000,"ux","t0"⟩]
        % (([⟨"ux","member","X"⟩, ⟨"uy","member","Y"⟩] : List Member).length : Int)
    ∧ |((balances [⟨"ux","member","X"⟩, ⟨"uy","member","Y"⟩]
          [⟨"e1","h1","ux","dinner",1000,"ux","t0"⟩]).map (·.balance_ore)).sum|
        ≤ (([⟨"ux","member","X"⟩, ⟨"uy","member","Y"⟩] : List Member).length : Int) - 1 :=
  balances_sum_rounding_remainder
    [⟨"ux","member","X"⟩, ⟨"uy","member","Y"⟩]
    [⟨"e1","h1","ux","dinner",1000,"ux","t0"⟩]
    (by decide) (by decide) (by decide)

/-! ### Claim C8 -/

/-- C8: settlement edge cases.  Zero members give an empty balance list
and an empty plan; an empty ledger gives all-zero balances and an empty
plan; a single member whose ledger entries are all their own has balance
zero by construction and an empty plan. -/
theorem settlement_edge_cases :
    (∀ (expenses : List Expense),
      balances [] expenses = []
      ∧ computeSettlements (balances [] expenses) = [])
    ∧ (∀ (members : List Member),
        (∀ b ∈ balances members [], b.balance_ore = 0)
        ∧ computeSettlements (balances members []) = [])
    ∧ (∀ (m : Member) (expenses : List Expense),
        (∀ e ∈ expenses, e.paid_by = m.user_id) →
          balances [m] expenses = [⟨m.user_id, displayNameOf m, 0⟩]
          ∧ computeSettlements (balances [m] expenses) = []) := by
  refine ⟨?_, ?_, ?_⟩
  · intro expenses
    have h1 : balances [] expenses = [] := by simp [balances]
    exact ⟨h1, by rw [h1]; exact computeSettlements_of_all_zero (by simp)⟩
  · intro members
    have hz : ∀ b ∈ balances members [], b.balance_ore = 0 := by
      intro b hb
      by_cases h : members.length = 0
      · simp [balances, h] at hb
      · simp only [balances, if_neg h] at hb
        rcases List.mem_map.mp hb with ⟨m, _, rfl⟩
        simp [roundOre, totalOre, paidOre]
    exact ⟨hz, computeSettlements_of_all_zero hz⟩
  · intro m expenses hall
    have hpaid : paidOre expenses m.user_id = totalOre expenses := by
      have hfe : expenses.filter (fun e => e.paid_by = m.user_id) = expenses :=
        List.filter_eq_self.mpr (fun e he => by simp [hall e he])
      rw [paidOre, totalOre, hfe]
    have h1 : balances [m] expenses = [⟨m.user_id, displayNameOf m, 0⟩] := by
      simp only [balances, List.length_cons, List.length_nil]
      rw [if_neg (by omega)]
      simp only [List.map_cons, List.map_nil]
      congr 2
      rw [hpaid, roundOre]
      push_cast
      simp
    refine ⟨h1, ?_⟩
    rw [h1]
    exact computeSettlements_of_all_zero (by simp)

/-! ### Claim C1 -/

/-- C1: the settlement computation partitions entries with positive
balance as creditors and negative balance as debtors (tracked by
positive magnitude), sorts both groups descending and stably (elements
with equal key keep their roster order: filtering any key value out of
the sorted list gives the same subsequence as filtering it out of the
unsorted one), then runs the two-pointer greedy loop, whose one-step
unfolding emits `x = min(d.remaining, c.remaining)` from `d` to `c` only
when `x > 0`, subtracts `x` from both and advances past any party whose
remainder reaches zero, stopping when either side is exhausted.  For
members `[X, Y, Z]` and the single ledger entry `{payer: X, amount: 900}`
the transfers are exactly two lines of 300 each, totalling 600. -/
theorem settlement_greedy_match_spec :
    (∀ (bs : List BalanceEntry),
      computeSettlements bs = settleLoop (debtors bs) (creditors bs)
      ∧ creditors bs = sortDesc (bs.filter (fun b => 0 < b.balance_ore))
      ∧ debtors bs = sortDesc ((bs.filter (fun b => b.balance_ore < 0)).map
          (fun b => { b with balance_ore := -b.balance_ore })))
    ∧ (∀ (bs : List BalanceEntry),
        (creditors bs).Pairwise (fun a b => b.balance_ore ≤ a.balance_ore)
        ∧ (debtors bs).Pairwise (fun a b => b.balance_ore ≤ a.balance_ore))
    ∧ (∀ (bs : List BalanceEntry) (k : Int),
        (creditors bs).filter (fun b => b.balance_ore = k)
          = (bs.filter (fun b => 0 < b.balance_ore)).filter (fun b => b.balance_ore = k)
        ∧ (debtors bs).filter (fun b => b.balance_ore = k)
          = ((bs.filter (fun b => b.balance_ore < 0)).map
              (fun b => { b with balance_ore := -b.balance_ore })).filter
              (fun b => b.balance_ore = k))
    ∧ (∀ (d c : BalanceEntry) (ds cs : List BalanceEntry),
        settleLoop (d :: ds) (c :: cs) =
          (if 0 < min d.balance_ore c.balance_ore
            then [⟨d.display_name, c.display_name, min d.balance_ore c.balance_ore⟩]
            else []) ++
          settleLoop
            (if d.balance_ore - min d.balance_ore c.balance_ore ≤ 0 then ds
             else { d with balance_ore :=
                      d.balance_ore - min d.balance_ore c.balance_ore } :: ds)
            (if c.balance_ore - min d.balance_ore c.balance_ore ≤ 0 then cs
             else { c with balance_ore :=
                      c.balance_ore - min d.balance_ore c.balance_ore } :: cs))
    ∧ (∀ (cs : List BalanceEntry), settleLoop [] cs = [])
    ∧ (∀ (d : BalanceEntry) (ds : List BalanceEntry), settleLoop (d :: ds) [] = [])
    ∧ (balances [⟨"ux","member","X"⟩, ⟨"uy","member","Y"⟩, ⟨"uz","member","Z"⟩]
          [⟨"e1","h1","ux","stuff",900,"ux","t0"⟩]
        = [⟨"ux","X",600⟩, ⟨"uy","Y",-300⟩, ⟨"uz","Z",-300⟩]
      ∧ computeSettlements [⟨"ux","X",600⟩, ⟨"uy","Y",-300⟩, ⟨"uz","Z",-300⟩]
        = [⟨"Y","X",300⟩, ⟨"Z","X",300⟩]
      ∧ ((computeSettlements [⟨"ux","X",600⟩, ⟨"uy","Y",-300⟩, ⟨"uz","Z",-300⟩]).map
          (·.amount_ore)).sum = 600
      ∧ ∀ l ∈ computeSettlements [⟨"ux","X",600⟩, ⟨"uy","Y",-300⟩, ⟨"uz","Z",-300⟩],
          l.amount_ore ≤ 300) := by
  refine ⟨fun bs => ⟨rfl, rfl, rfl⟩, fun bs => ⟨pairwise_sortDesc _, pairwise_sortDesc _⟩,
    fun bs k => ⟨sortDesc_filter_key k _, sortDesc_filter_key k _⟩,
    settleLoop_cons_cons, fun cs => by simp [settleLoop],
    fun d ds => by simp [settleLoop], ?_, ?_, ?_, ?_⟩
  · simp only [balances, totalOre, paidOre, displayNameOf, trimJS, sliceJS, roundOre,
      List.filter, List.dropWhile, List.map, List.sum, List.foldr, List.reverse,
      List.length]
    norm_num [round_eq]
    decide
  · simp [computeSettlements, debtors, creditors, sortDesc, insertDesc, settleLoop]
  · simp [computeSettlements, debtors, creditors, sortDesc, insertDesc, settleLoop]
  · simp [computeSettlements, debtors, creditors, sortDesc, insertDesc, settleLoop]

/-- Witness for C8 (third conjunct): one member `Ann` who paid the single
`500`-öre expense has balance `0` and an empty plan. -/
theorem settlement_edge_cases_witness :
    balances [⟨"u1","member","Ann"⟩] [⟨"e1","h1","u1","food",500,"u1","t0"⟩]
      = [⟨"u1", displayNameOf ⟨"u1","member","Ann"⟩, 0⟩]
    ∧ computeSettlements
        (balances [⟨"u1","member","Ann"⟩] [⟨"e1","h1","u1","food",500,"u1","t0"⟩]) = [] :=
  settlement_edge_cases.2.2 ⟨"u1","member","Ann"⟩
    [⟨"e1","h1","u1","food",500,"u1","t0"⟩] (by decide)

end Housekeeping
